import Mathlib

/-!
# A verification development for the Game-of-Life application (`src/main.rs`)

The application keeps a sparse grid of cells in a `HashMap<String, CellData>`
(resource `Grid`), where the key is the string `format!("{x}:{y}")` built from
the `f32` center position of the cell sprite, and
`CellData { alive: bool, entity: Entity }` stores the aliveness flag and the
rendering entity id.  The systems modelled here are `place_tile_system`
(mouse click placement while editing), `population_system` (one generation per
timer tick while running) together with its helpers `count_cell_neighbors` and
`get_dead_cells`.

Embedding choices:

* Every cell position produced by the application lies on the lattice
  `8 * k + 4` for integer `k`, with absolute value at most `644`; on this range
  `f32` addition/subtraction of `CELL_SIZE = 8.0` is exact and the
  `format!("{x}:{y}")` key is injective in the position pair.  Positions are
  therefore embedded as pairs of integers and the string-keyed `HashMap` as an
  association list keyed by the position pair (unique keys, first-match
  lookup; `HashMap::insert` replaces the value at an existing key).
* Entities are embedded as consecutive naturals handed out by a counter;
  `Commands::spawn` is deferred by the engine until after the system runs, so
  entities spawned during a step are appended to the entity list only when the
  step is over, and the query `q_cells` iterates exactly the `Cell` entities
  existing when the system started.  The iteration order of `q_cells` (and of
  the `HashMap`) is unspecified in the engine; the embedding fixes it as the
  order of the entity list.
* Visibility changes (`Visibility::Hidden` / `Visible`) are presentation-only
  and are not part of the grid state; they are omitted.  No system ever
  despawns a `Cell` entity.
* The mouse position is an `f32` pair; on the values reachable in the window
  the divisions, comparisons and `as i32` casts of `place_tile_system` are
  exact, so positions are embedded as rationals, with the Rust `as i32`
  truncation toward zero made explicit.
* `i32` arithmetic in the sources (neighbor counts, bound checks, offsets)
  stays far away from overflow, so `Int` is used directly.
-/

namespace GoL

/-- A discretized cell-center position: the pair of `f32` coordinates that the
application formats into the `HashMap` key (exact integers on the reachable
lattice). -/
abbrev Pos := Int × Int

/-- The constant `CELL_SIZE: f32 = 8.0` (used as `CELL_SIZE as i32` where integral). -/
def CELL_SIZE : Int := 8

/-- The constant `WINDOW_WIDTH: i32 = 1280`. -/
def WINDOW_WIDTH : Int := 1280

/-- The constant `WINDOW_HEIGHT: i32 = 720`. -/
def WINDOW_HEIGHT : Int := 720

/-- The struct `CellData` of the source, with fields `alive: bool` and `entity: Entity`. -/
structure CellData where
  alive : Bool
  entity : Nat
  deriving Repr, DecidableEq

/-- The `Grid.cells` map: `HashMap<String, CellData>` keyed by the formatted
position, embedded as an association list keyed by the position pair. -/
abbrev CellMap := List (Pos × CellData)

/-- Lookup, `HashMap::get` (first matching key). -/
def mapGet : CellMap → Pos → Option CellData
  | [], _ => none
  | kv :: rest, p => if kv.1 = p then some kv.2 else mapGet rest p

/-- Insertion, `HashMap::insert`: replace the value at an existing key, otherwise add the
binding. -/
def mapInsert : CellMap → Pos → CellData → CellMap
  | [], p, v => [(p, v)]
  | kv :: rest, p, v => if kv.1 = p then (p, v) :: rest else kv :: mapInsert rest p v

/-- The pattern `grid.cells.get_mut(&key)` followed by `cell.alive = b` (a no-op when the
key is absent, exactly like the `if let Some(cell)` in the source). -/
def setAlive : CellMap → Pos → Bool → CellMap
  | [], _, _ => []
  | kv :: rest, p, b =>
      if kv.1 = p then (kv.1, ⟨b, kv.2.entity⟩) :: rest else kv :: setAlive rest p b

/-- The closure `is_cell_alive` of `count_cell_neighbors` / `get_dead_cells`:
look the formatted position up in `alive_cells` and read its `alive` flag,
defaulting to `false`. -/
def is_cell_alive (alive_cells : CellMap) (x y : Int) : Bool :=
  match mapGet alive_cells (x, y) with
  | some cell => cell.alive
  | none => false

/-- Aliveness of a position in a cell map (the notion the application uses of a live
cell: a map entry whose `alive` flag is set). -/
def isAlive (cells : CellMap) (p : Pos) : Bool :=
  is_cell_alive cells p.1 p.2

/-- The Rust cast `bool as i32`. -/
def boolToInt (b : Bool) : Int := if b then 1 else 0

/-- The function `count_cell_neighbors`: sum of the aliveness indicators of the 8 Moore
neighbors (`n + s + w + e + ne + nw + se + sw`, offsets of `CELL_SIZE`). -/
def count_cell_neighbors (cell_position : Pos) (alive_cells : CellMap) : Int :=
  let x := cell_position.1
  let y := cell_position.2
  let n := boolToInt (is_cell_alive alive_cells x (y + CELL_SIZE))
  let s := boolToInt (is_cell_alive alive_cells x (y - CELL_SIZE))
  let w := boolToInt (is_cell_alive alive_cells (x - CELL_SIZE) y)
  let e := boolToInt (is_cell_alive alive_cells (x + CELL_SIZE) y)
  let ne := boolToInt (is_cell_alive alive_cells (x + CELL_SIZE) (y + CELL_SIZE))
  let nw := boolToInt (is_cell_alive alive_cells (x - CELL_SIZE) (y + CELL_SIZE))
  let se := boolToInt (is_cell_alive alive_cells (x + CELL_SIZE) (y - CELL_SIZE))
  let sw := boolToInt (is_cell_alive alive_cells (x - CELL_SIZE) (y - CELL_SIZE))
  n + s + w + e + ne + nw + se + sw

/-- The `neighbors` vector of `get_dead_cells` (the 8 Moore neighbors, in
source order N, S, W, E, NE, NW, SE, SW; the constant `z` component is
dropped). -/
def neighborList (p : Pos) : List Pos :=
  [(p.1, p.2 + CELL_SIZE), (p.1, p.2 - CELL_SIZE),
   (p.1 - CELL_SIZE, p.2), (p.1 + CELL_SIZE, p.2),
   (p.1 + CELL_SIZE, p.2 + CELL_SIZE), (p.1 - CELL_SIZE, p.2 + CELL_SIZE),
   (p.1 + CELL_SIZE, p.2 - CELL_SIZE), (p.1 - CELL_SIZE, p.2 - CELL_SIZE)]

/-- The function `get_dead_cells`: the Moore neighbors of `cell_position` that are not alive
in `alive_cells`. -/
def get_dead_cells (cell_position : Pos) (alive_cells : CellMap) : List Pos :=
  (neighborList cell_position).filter (fun n => !(is_cell_alive alive_cells n.1 n.2))

/-- The mutable state threaded through one run of the generation update of
`population_system`: the `Grid.cells` map, the id the next `Commands::spawn`
will hand out, and the entities spawned (deferred) so far in this run, with
the position each was spawned at. -/
structure StepState where
  cells : CellMap
  nextEntity : Nat
  spawned : List (Nat × Pos)
  deriving Repr, DecidableEq

/-- The body of the inner `for dead_cell_position in &dead_cells` loop of
`population_system`: when the neighbor count of the candidate in the snapshot is
exactly 3, either flip the flag of the existing entry to alive, or spawn a new
entity and insert a fresh alive entry. -/
def birthStep (alive_cells : CellMap) (st : StepState) (dp : Pos) : StepState :=
  if count_cell_neighbors dp alive_cells = 3 then
    match mapGet st.cells dp with
    | some _ => { st with cells := setAlive st.cells dp true }
    | none =>
        { cells := mapInsert st.cells dp ⟨true, st.nextEntity⟩,
          nextEntity := st.nextEntity + 1,
          spawned := st.spawned ++ [(st.nextEntity, dp)] }
  else st

/-- The body of the outer `for (cell_transform, ...) in &mut q_cells` loop of
`population_system`: kill the cell of the iterated entity when its snapshot neighbor count is
under 2 or over 3, then run the birth rule over its dead neighbors. -/
def processEntity (alive_cells : CellMap) (st : StepState) (e : Pos) : StepState :=
  (get_dead_cells e alive_cells).foldl (birthStep alive_cells)
    (if count_cell_neighbors e alive_cells < 2 ∨ count_cell_neighbors e alive_cells > 3 then
      { st with cells := setAlive st.cells e false }
    else st)

/-- The `alive_cells` snapshot built at the top of the generation update: the
entries of `grid.cells` whose `alive` flag is set, copied before any mutation. -/
def aliveSnapshot (cells : CellMap) : CellMap :=
  cells.filter (fun kv => kv.2.alive)

/-- The generation update of `population_system` (the body of the
`timer.finished()` branch): snapshot the alive cells, then run the death/birth
rules over the position of every `Cell` entity. -/
def populationStep (cells : CellMap) (entityPositions : List Pos) (nextEntity : Nat) :
    StepState :=
  entityPositions.foldl (processEntity (aliveSnapshot cells)) ⟨cells, nextEntity, []⟩

/-- The live set of a cell map: the positions whose entry has the `alive` flag
set. -/
def liveSet (cells : CellMap) : List Pos :=
  (cells.filter (fun kv => kv.2.alive)).map Prod.fst

/-- The application state the modelled systems touch: the `Grid` resource, the
spawned `Cell` entities with their sprite translations (the query `q_cells`),
the spawn counter, and `GameState.running`. -/
structure World where
  cells : CellMap
  cellEntities : List (Nat × Pos)
  nextEntity : Nat
  running : Bool
  deriving Repr, DecidableEq

/-- The system `population_system`: a no-op unless `game_state.running` and the repeating
timer just finished; otherwise run one generation update, with the entities
spawned during the update flushed into the entity list afterwards. -/
def population_system (w : World) (timerFinished : Bool) : World :=
  if !w.running then w
  else if !timerFinished then w
  else
    let st := populationStep w.cells (w.cellEntities.map Prod.snd) w.nextEntity
    { w with
      cells := st.cells,
      cellEntities := w.cellEntities ++ st.spawned,
      nextEntity := st.nextEntity }

/-- The Rust `f32 as i32` cast on the exactly-represented values reachable here:
truncation toward zero. -/
def ratTruncToInt (q : ℚ) : Int :=
  if 0 ≤ q then ⌊q⌋ else ⌈q⌉

/-- The `get_center_offset` closure of `place_tile_system`:
`if position > 0.0 { (CELL_SIZE as i32) / 2 } else { -(CELL_SIZE as i32) / 2 }`. -/
def get_center_offset (position : ℚ) : Int :=
  if 0 < position then CELL_SIZE / 2 else -(CELL_SIZE / 2)

/-- The discretization of one coordinate in `place_tile_system`:
`(x / CELL_SIZE) as i32 * (CELL_SIZE as i32) + get_center_offset(x)`. -/
def discretize (v : ℚ) : Int :=
  ratTruncToInt (v / (CELL_SIZE : ℚ)) * CELL_SIZE + get_center_offset v

/-- The discretization as the specification words it: the grid coordinate is
`floor(position / cell_size)`, rendered as a center position by centering onto
the center of that cell. -/
def spec_floor_center (v : ℚ) : Int :=
  ⌊v / (CELL_SIZE : ℚ)⌋ * CELL_SIZE + CELL_SIZE / 2

/-- The system `place_tile_system` on a left-click at mouse position `(mx, my)`: a no-op
while running or when the truncated position is outside the window half-extents,
otherwise spawn a sprite entity at the discretized center and insert an alive
entry for it (replacing any entry already at that key). -/
def place_tile_system (w : World) (mx my : ℚ) : World :=
  if w.running then w
  else
    let half_width := WINDOW_WIDTH / 2
    if ratTruncToInt mx < -half_width ∨ ratTruncToInt mx > half_width then w
    else
      let half_height := WINDOW_HEIGHT / 2
      if ratTruncToInt my < -half_height ∨ ratTruncToInt my > half_height then w
      else
        let x := discretize mx
        let y := discretize my
        let entity := w.nextEntity
        { w with
          cells := mapInsert w.cells (x, y) ⟨true, entity⟩,
          cellEntities := w.cellEntities ++ [(entity, (x, y))],
          nextEntity := w.nextEntity + 1 }

/-- The blinker seed: a row of three collinear live cells at lattice centers
`(-4, 4)`, `(4, 4)`, `(12, 4)` with middle cell `(4, 4)`. -/
def blinkerCells : CellMap :=
  [((-4, 4), ⟨true, 0⟩), ((4, 4), ⟨true, 1⟩), ((12, 4), ⟨true, 2⟩)]

/-- The world holding the blinker seed, already running. -/
def blinkerWorld : World :=
  { cells := blinkerCells,
    cellEntities := [(0, (-4, 4)), (1, (4, 4)), (2, (12, 4))],
    nextEntity := 3,
    running := true }

/-- How many times one generation update evaluates the birth rule at a given
position: the number of times the position occurs among the dead-neighbor
candidates enumerated for the iterated entities. -/
def birthEvaluations (alive_cells : CellMap) (entityPositions : List Pos) (p : Pos) : Nat :=
  entityPositions.foldl (fun acc e => acc + (get_dead_cells e alive_cells).count p) 0

/-- The death test of `population_system`: `neighbors < 2 || neighbors > 3`. -/
def badCount (a : CellMap) (q : Pos) : Prop :=
  count_cell_neighbors q a < 2 ∨ count_cell_neighbors q a > 3

instance (a : CellMap) (q : Pos) : Decidable (badCount a q) := by
  unfold badCount
  infer_instance

/-- The number of entries of a cell map whose key is `p` (1 for present keys,
0 for absent ones, once keys are unique). -/
def keyCount (l : CellMap) (p : Pos) : Nat :=
  l.countP (fun kv => decide (kv.1 = p))

/-- The number of entities in a spawn list that were spawned at position `p`. -/
def spawnCount (s : List (Nat × Pos)) (p : Pos) : Nat :=
  s.countP (fun n => decide (n.2 = p))

/-- The `Cell` entity positions of the blinker world (the `q_cells` iteration). -/
def blinkerE : List Pos := [(-4, 4), (4, 4), (12, 4)]

/-- A running world holding one isolated live cell. -/
def lonelyWorld : World :=
  { cells := [((4, 4), ⟨true, 0⟩)],
    cellEntities := [(0, (4, 4))],
    nextEntity := 1,
    running := true }

/-- An editing (not running) world holding one live cell at `(4, 4)`, the
discretized center for a click at position `(1, 1)`. -/
def editWorld : World :=
  { cells := [((4, 4), ⟨true, 0⟩)],
    cellEntities := [(0, (4, 4))],
    nextEntity := 1,
    running := false }

/-- Bookkeeping for a position during one generation update: either it has
never been inserted (no entry, no spawn), or it has exactly one entry and
exactly one spawned entity. -/
def BornOnceInv (p : Pos) (st : StepState) : Prop :=
  (mapGet st.cells p = none ∧ keyCount st.cells p = 0 ∧ spawnCount st.spawned p = 0) ∨
  ((mapGet st.cells p).isSome = true ∧ keyCount st.cells p = 1 ∧ spawnCount st.spawned p = 1)

/-! ## Association-list map lemmas -/

lemma mapGet_setAlive_self (l : CellMap) (p : Pos) (b : Bool) :
    mapGet (setAlive l p b) p = (mapGet l p).map (fun c => ⟨b, c.entity⟩) := by
  induction l with
  | nil => rfl
  | cons kv rest ih =>
      unfold setAlive
      by_cases h : kv.1 = p
      · rw [if_pos h]
        unfold mapGet
        rw [if_pos h, if_pos h]
        rfl
      · rw [if_neg h]
        unfold mapGet
        rw [if_neg h, if_neg h]
        exact ih

lemma mapGet_setAlive_ne (l : CellMap) (p q : Pos) (b : Bool) (h : q ≠ p) :
    mapGet (setAlive l p b) q = mapGet l q := by
  induction l with
  | nil => rfl
  | cons kv rest ih =>
      unfold setAlive
      by_cases hk : kv.1 = p
      · rw [if_pos hk]
        have hkq : ¬ kv.1 = q := fun hq => h (hq.symm.trans hk)
        unfold mapGet
        rw [if_neg hkq, if_neg hkq]
      · rw [if_neg hk]
        unfold mapGet
        by_cases hq : kv.1 = q
        · rw [if_pos hq, if_pos hq]
        · rw [if_neg hq, if_neg hq]
          exact ih

lemma mapGet_mapInsert_self (l : CellMap) (p : Pos) (v : CellData) :
    mapGet (mapInsert l p v) p = some v := by
  induction l with
  | nil =>
      unfold mapInsert mapGet
      rw [if_pos rfl]
  | cons kv rest ih =>
      unfold mapInsert
      by_cases h : kv.1 = p
      · rw [if_pos h]
        unfold mapGet
        rw [if_pos rfl]
      · rw [if_neg h]
        unfold mapGet
        rw [if_neg h]
        exact ih

lemma mapGet_mapInsert_ne (l : CellMap) (p q : Pos) (v : CellData) (h : q ≠ p) :
    mapGet (mapInsert l p v) q = mapGet l q := by
  induction l with
  | nil =>
      unfold mapInsert mapGet
      rw [if_neg (fun hq => h hq.symm)]
      rfl
  | cons kv rest ih =>
      unfold mapInsert
      by_cases hk : kv.1 = p
      · rw [if_pos hk]
        have hkq : ¬ kv.1 = q := fun hq => h (hq.symm.trans hk)
        have hpq : ¬ p = q := fun hq => h hq.symm
        unfold mapGet
        rw [if_neg hkq, if_neg hpq]
      · rw [if_neg hk]
        unfold mapGet
        by_cases hq : kv.1 = q
        · rw [if_pos hq, if_pos hq]
        · rw [if_neg hq, if_neg hq]
          exact ih

lemma mapGet_mem (l : CellMap) (p : Pos) (c : CellData) (h : mapGet l p = some c) :
    (p, c) ∈ l := by
  induction l with
  | nil => exact absurd h (by simp [mapGet])
  | cons kv rest ih =>
      unfold mapGet at h
      by_cases hk : kv.1 = p
      · rw [if_pos hk] at h
        injection h with h2
        have : (p, c) = kv := by rw [← hk, ← h2]
        rw [this]
        exact List.mem_cons_self _ _
      · rw [if_neg hk] at h
        exact List.mem_cons_of_mem _ (ih h)

lemma mapGet_eq_none_iff (l : CellMap) (p : Pos) :
    mapGet l p = none ↔ p ∉ l.map Prod.fst := by
  induction l with
  | nil => simp [mapGet]
  | cons kv rest ih =>
      unfold mapGet
      by_cases hk : kv.1 = p
      · rw [if_pos hk]
        simp [hk]
      · rw [if_neg hk]
        simp only [List.map_cons, List.mem_cons, ih]
        constructor
        · rintro hnp (hp | hp)
          · exact hk hp.symm
          · exact hnp hp
        · intro hnp hp
          exact hnp (Or.inr hp)

lemma mapInsert_of_get_none (l : CellMap) (p : Pos) (v : CellData)
    (h : mapGet l p = none) : mapInsert l p v = l ++ [(p, v)] := by
  induction l with
  | nil => rfl
  | cons kv rest ih =>
      unfold mapGet at h
      by_cases hk : kv.1 = p
      · rw [if_pos hk] at h
        exact absurd h (by simp)
      · rw [if_neg hk] at h
        unfold mapInsert
        rw [if_neg hk, ih h]
        rfl

lemma setAlive_map_fst (l : CellMap) (p : Pos) (b : Bool) :
    (setAlive l p b).map Prod.fst = l.map Prod.fst := by
  induction l with
  | nil => rfl
  | cons kv rest ih =>
      unfold setAlive
      by_cases h : kv.1 = p
      · rw [if_pos h]
        rfl
      · rw [if_neg h]
        simp only [List.map_cons, ih]

/-! ## Characterizing one generation update -/

lemma isAlive_eq (l : CellMap) (p : Pos) :
    isAlive l p = match mapGet l p with | some c => c.alive | none => false := rfl

lemma isAlive_eq_true_iff (l : CellMap) (p : Pos) :
    isAlive l p = true ↔ ∃ c, mapGet l p = some c ∧ c.alive = true := by
  rw [isAlive_eq]
  cases h : mapGet l p <;> simp

lemma isAlive_killCell (l : CellMap) (e q : Pos) :
    isAlive (setAlive l e false) q = true ↔ (isAlive l q = true ∧ q ≠ e) := by
  by_cases hq : q = e
  · subst hq
    rw [isAlive_eq, mapGet_setAlive_self]
    cases mapGet l q <;> simp
  · rw [isAlive_eq, mapGet_setAlive_ne _ _ _ _ hq, ← isAlive_eq]
    simp [hq]

lemma mem_get_dead_cells (e q : Pos) (a : CellMap) :
    q ∈ get_dead_cells e a ↔ (q ∈ neighborList e ∧ is_cell_alive a q.1 q.2 = false) := by
  unfold get_dead_cells
  rw [List.mem_filter]
  simp

lemma isAlive_birthStep (a : CellMap) (st : StepState) (dp q : Pos) :
    isAlive (birthStep a st dp).cells q = true ↔
      (isAlive st.cells q = true ∨ (q = dp ∧ count_cell_neighbors dp a = 3)) := by
  unfold birthStep
  by_cases h3 : count_cell_neighbors dp a = 3
  · rw [if_pos h3]
    cases hg : mapGet st.cells dp with
    | some c =>
        by_cases hq : q = dp
        · subst hq
          show isAlive (setAlive st.cells q true) q = true ↔ _
          rw [isAlive_eq, mapGet_setAlive_self, hg]
          simp [h3]
        · show isAlive (setAlive st.cells dp true) q = true ↔ _
          rw [isAlive_eq, mapGet_setAlive_ne _ _ _ _ hq, ← isAlive_eq]
          simp [hq]
    | none =>
        by_cases hq : q = dp
        · subst hq
          show isAlive (mapInsert st.cells q ⟨true, st.nextEntity⟩) q = true ↔ _
          rw [isAlive_eq, mapGet_mapInsert_self]
          simp [h3]
        · show isAlive (mapInsert st.cells dp ⟨true, st.nextEntity⟩) q = true ↔ _
          rw [isAlive_eq, mapGet_mapInsert_ne _ _ _ _ hq, ← isAlive_eq]
          simp [hq]
  · rw [if_neg h3]
    simp [h3]

lemma isAlive_birthFold (a : CellMap) (L : List Pos) (st : StepState) (q : Pos) :
    isAlive ((L.foldl (birthStep a) st).cells) q = true ↔
      (isAlive st.cells q = true ∨ (q ∈ L ∧ count_cell_neighbors q a = 3)) := by
  induction L generalizing st with
  | nil => simp
  | cons b L ih =>
      rw [List.foldl_cons, ih, isAlive_birthStep]
      constructor
      · rintro ((h | ⟨hq, h3⟩) | ⟨hm, h3⟩)
        · exact Or.inl h
        · subst hq
          exact Or.inr ⟨List.mem_cons_self _ _, h3⟩
        · exact Or.inr ⟨List.mem_cons_of_mem _ hm, h3⟩
      · rintro (h | ⟨hm, h3⟩)
        · exact Or.inl (Or.inl h)
        · rcases List.mem_cons.mp hm with hq | hm2
          · subst hq
            exact Or.inl (Or.inr ⟨rfl, h3⟩)
          · exact Or.inr ⟨hm2, h3⟩

lemma isAlive_processEntity (a : CellMap) (st : StepState) (e q : Pos) :
    isAlive (processEntity a st e).cells q = true ↔
      ((isAlive st.cells q = true ∧ ¬(q = e ∧ badCount a e)) ∨
       (q ∈ get_dead_cells e a ∧ count_cell_neighbors q a = 3)) := by
  unfold processEntity badCount
  rw [isAlive_birthFold]
  by_cases hb : count_cell_neighbors e a < 2 ∨ count_cell_neighbors e a > 3
  · rw [if_pos hb]
    show (isAlive (setAlive st.cells e false) q = true ∨ _) ↔ _
    rw [isAlive_killCell]
    tauto
  · rw [if_neg hb]
    tauto

lemma isAlive_entityFold (a : CellMap) (E : List Pos) (st : StepState) (q : Pos)
    (hq : is_cell_alive a q.1 q.2 = false → isAlive st.cells q = true →
      count_cell_neighbors q a = 3) :
    isAlive ((E.foldl (processEntity a) st).cells) q = true ↔
      (if is_cell_alive a q.1 q.2 = true then
        (isAlive st.cells q = true ∧ ¬(q ∈ E ∧ badCount a q))
      else
        (isAlive st.cells q = true ∨
          (count_cell_neighbors q a = 3 ∧ ∃ e ∈ E, q ∈ get_dead_cells e a))) := by
  induction E generalizing st with
  | nil =>
      by_cases hA : is_cell_alive a q.1 q.2 = true
      · simp [hA]
      · simp [hA]
  | cons e E ih =>
      rw [List.foldl_cons]
      have hq2 : is_cell_alive a q.1 q.2 = false →
          isAlive (processEntity a st e).cells q = true → count_cell_neighbors q a = 3 := by
        intro hA halive
        rcases (isAlive_processEntity a st e q).mp halive with ⟨h1, _⟩ | ⟨_, h3⟩
        · exact hq hA h1
        · exact h3
      rw [ih _ hq2]
      by_cases hA : is_cell_alive a q.1 q.2 = true
      · rw [if_pos hA, if_pos hA, isAlive_processEntity]
        constructor
        · rintro ⟨⟨h1, hne⟩ | ⟨hm, _⟩, hE⟩
          · refine ⟨h1, ?_⟩
            rintro ⟨hmem, hbad⟩
            rcases List.mem_cons.mp hmem with hqe | hqE
            · subst hqe
              exact hne ⟨rfl, hbad⟩
            · exact hE ⟨hqE, hbad⟩
          · have hdead := ((mem_get_dead_cells e q a).mp hm).2
            rw [hdead] at hA
            exact absurd hA (by simp)
        · rintro ⟨h1, hno⟩
          refine ⟨Or.inl ⟨h1, ?_⟩, ?_⟩
          · rintro ⟨hqe, hbade⟩
            subst hqe
            exact hno ⟨List.mem_cons_self _ _, hbade⟩
          · rintro ⟨hqE, hbad⟩
            exact hno ⟨List.mem_cons_of_mem _ hqE, hbad⟩
      · rw [if_neg hA, if_neg hA, isAlive_processEntity]
        have hAf : is_cell_alive a q.1 q.2 = false := by
          cases hcc : is_cell_alive a q.1 q.2
          · rfl
          · exact absurd hcc hA
        constructor
        · rintro ((⟨h1, _⟩ | ⟨hm, h3⟩) | ⟨h3, e2, hm2, hd2⟩)
          · exact Or.inl h1
          · exact Or.inr ⟨h3, e, List.mem_cons_self _ _, hm⟩
          · exact Or.inr ⟨h3, e2, List.mem_cons_of_mem _ hm2, hd2⟩
        · rintro (h1 | ⟨h3, e2, hm2, hd2⟩)
          · refine Or.inl (Or.inl ⟨h1, ?_⟩)
            rintro ⟨hqe, hbad⟩
            have h3 := hq hAf h1
            subst hqe
            unfold badCount at hbad
            omega
          · rcases List.mem_cons.mp hm2 with he2 | he2
            · subst he2
              exact Or.inl (Or.inr ⟨hd2, h3⟩)
            · exact Or.inr ⟨h3, e2, he2, hd2⟩

lemma is_cell_alive_eq (l : CellMap) (q : Pos) :
    is_cell_alive l q.1 q.2 = isAlive l q := rfl

lemma keys_filter_subset (l : CellMap) (f : Pos × CellData → Bool) :
    (l.filter f).map Prod.fst ⊆ l.map Prod.fst :=
  ((List.filter_sublist l).map Prod.fst).subset

lemma mapGet_cons (kv : Pos × CellData) (rest : CellMap) (p : Pos) :
    mapGet (kv :: rest) p = if kv.1 = p then some kv.2 else mapGet rest p := rfl

lemma isAlive_cons_ne (kv : Pos × CellData) (rest : CellMap) (q : Pos) (hk : ¬ kv.1 = q) :
    isAlive (kv :: rest) q = isAlive rest q := by
  rw [isAlive_eq, isAlive_eq, mapGet_cons, if_neg hk]

lemma isAlive_aliveSnapshot (cells : CellMap) (q : Pos) :
    (cells.map Prod.fst).Nodup → isAlive (aliveSnapshot cells) q = isAlive cells q := by
  unfold aliveSnapshot
  induction cells with
  | nil => intro _; rfl
  | cons kv rest ih =>
      intro hnd
      rw [List.map_cons, List.nodup_cons] at hnd
      obtain ⟨hnotin, hnd2⟩ := hnd
      by_cases ha : kv.2.alive = true
      · rw [List.filter_cons_of_pos (by simpa using ha)]
        by_cases hk : kv.1 = q
        · rw [isAlive_eq, isAlive_eq, mapGet_cons, mapGet_cons, if_pos hk, if_pos hk]
        · rw [isAlive_cons_ne _ _ _ hk, isAlive_cons_ne _ _ _ hk]
          exact ih hnd2
      · rw [List.filter_cons_of_neg (by simpa using ha)]
        by_cases hk : kv.1 = q
        · have hqnot : q ∉ rest.map Prod.fst := by rw [← hk]; exact hnotin
          have h1 : mapGet (rest.filter fun kv => kv.2.alive) q = none := by
            rw [mapGet_eq_none_iff]
            intro hmem
            exact hqnot (keys_filter_subset _ _ hmem)
          have h2 : mapGet (kv :: rest) q = some kv.2 := by
            rw [mapGet_cons, if_pos hk]
          rw [isAlive_eq, isAlive_eq, h1, h2]
          simp only [Bool.not_eq_true] at ha
          exact ha.symm
        · rw [isAlive_cons_ne _ _ _ hk]
          exact ih hnd2

lemma exists_alive_neighbor_of_count_three (a : CellMap) (q : Pos)
    (h : count_cell_neighbors q a = 3) :
    ∃ r ∈ neighborList q, is_cell_alive a r.1 r.2 = true := by
  by_contra hcon
  push_neg at hcon
  have hall : ∀ r ∈ neighborList q, is_cell_alive a r.1 r.2 = false := by
    intro r hr
    cases hcc : is_cell_alive a r.1 r.2
    · rfl
    · exact absurd hcc (hcon r hr)
  have h1 : is_cell_alive a q.1 (q.2 + CELL_SIZE) = false :=
    hall (q.1, q.2 + CELL_SIZE) (by simp [neighborList])
  have h2 : is_cell_alive a q.1 (q.2 - CELL_SIZE) = false :=
    hall (q.1, q.2 - CELL_SIZE) (by simp [neighborList])
  have h3 : is_cell_alive a (q.1 - CELL_SIZE) q.2 = false :=
    hall (q.1 - CELL_SIZE, q.2) (by simp [neighborList])
  have h4 : is_cell_alive a (q.1 + CELL_SIZE) q.2 = false :=
    hall (q.1 + CELL_SIZE, q.2) (by simp [neighborList])
  have h5 : is_cell_alive a (q.1 + CELL_SIZE) (q.2 + CELL_SIZE) = false :=
    hall (q.1 + CELL_SIZE, q.2 + CELL_SIZE) (by simp [neighborList])
  have h6 : is_cell_alive a (q.1 - CELL_SIZE) (q.2 + CELL_SIZE) = false :=
    hall (q.1 - CELL_SIZE, q.2 + CELL_SIZE) (by simp [neighborList])
  have h7 : is_cell_alive a (q.1 + CELL_SIZE) (q.2 - CELL_SIZE) = false :=
    hall (q.1 + CELL_SIZE, q.2 - CELL_SIZE) (by simp [neighborList])
  have h8 : is_cell_alive a (q.1 - CELL_SIZE) (q.2 - CELL_SIZE) = false :=
    hall (q.1 - CELL_SIZE, q.2 - CELL_SIZE) (by simp [neighborList])
  simp [count_cell_neighbors, h1, h2, h3, h4, h5, h6, h7, h8, boolToInt] at h

lemma mem_neighborList_symm (p q : Pos) (h : q ∈ neighborList p) : p ∈ neighborList q := by
  simp only [neighborList, CELL_SIZE, List.mem_cons, List.not_mem_nil, or_false] at h ⊢
  rcases h with h | h | h | h | h | h | h | h <;> subst h <;>
    simp [Prod.ext_iff]

/-- The net effect of one generation update on aliveness: a position is alive
after the update exactly when the Game-of-Life rules, with every neighbor
count taken against the pre-update snapshot, say so.  The hypotheses hold for
every reachable state: `HashMap` keys are unique, and every alive entry was
given a spawned `Cell` entity at its own position. -/
lemma step_char (cells : CellMap) (E : List Pos) (nextE : Nat) (q : Pos)
    (hnd : (cells.map Prod.fst).Nodup)
    (hcover : ∀ pc ∈ cells, pc.2.alive = true → pc.1 ∈ E) :
    isAlive (populationStep cells E nextE).cells q = true ↔
      ((isAlive cells q = true ∧
          2 ≤ count_cell_neighbors q (aliveSnapshot cells) ∧
          count_cell_neighbors q (aliveSnapshot cells) ≤ 3) ∨
       (isAlive cells q = false ∧
          count_cell_neighbors q (aliveSnapshot cells) = 3)) := by
  have hsnap : isAlive (aliveSnapshot cells) q = isAlive cells q :=
    isAlive_aliveSnapshot cells q hnd
  have hcovA : ∀ r : Pos, is_cell_alive (aliveSnapshot cells) r.1 r.2 = true → r ∈ E := by
    intro r hr
    rw [is_cell_alive_eq] at hr
    obtain ⟨c, hc, hca⟩ := (isAlive_eq_true_iff _ r).mp hr
    exact hcover (r, c) (List.mem_of_mem_filter (mapGet_mem _ _ _ hc)) hca
  have hside : is_cell_alive (aliveSnapshot cells) q.1 q.2 = false →
      isAlive (⟨cells, nextE, []⟩ : StepState).cells q = true →
      count_cell_neighbors q (aliveSnapshot cells) = 3 := by
    intro hdead halive
    rw [is_cell_alive_eq, hsnap] at hdead
    have halive2 : isAlive cells q = true := halive
    rw [hdead] at halive2
    exact absurd halive2 (by simp)
  unfold populationStep
  rw [isAlive_entityFold _ _ _ _ hside]
  by_cases hAq : is_cell_alive (aliveSnapshot cells) q.1 q.2 = true
  · rw [if_pos hAq]
    have halive : isAlive cells q = true := by
      rw [← hsnap, ← is_cell_alive_eq]
      exact hAq
    obtain ⟨c, hc, hca⟩ := (isAlive_eq_true_iff cells q).mp halive
    have hqE : q ∈ E := hcover (q, c) (mapGet_mem _ _ _ hc) hca
    constructor
    · rintro ⟨_, hno⟩
      have hgood : ¬ badCount (aliveSnapshot cells) q := fun hb => hno ⟨hqE, hb⟩
      unfold badCount at hgood
      exact Or.inl ⟨halive, by omega⟩
    · rintro (⟨_, hc2, hc3⟩ | ⟨hdead, _⟩)
      · refine ⟨halive, ?_⟩
        rintro ⟨_, hb⟩
        unfold badCount at hb
        omega
      · rw [halive] at hdead
        exact absurd hdead (by simp)
  · rw [if_neg hAq]
    have hAf : is_cell_alive (aliveSnapshot cells) q.1 q.2 = false := by
      cases hcc : is_cell_alive (aliveSnapshot cells) q.1 q.2
      · rfl
      · exact absurd hcc hAq
    have hdead : isAlive cells q = false := by
      rw [← hsnap, ← is_cell_alive_eq]
      exact hAf
    constructor
    · rintro (habs | ⟨h3, _⟩)
      · have habs2 : isAlive cells q = true := habs
        rw [hdead] at habs2
        exact absurd habs2 (by simp)
      · exact Or.inr ⟨hdead, h3⟩
    · rintro (⟨halive, _⟩ | ⟨_, h3⟩)
      · rw [hdead] at halive
        exact absurd halive (by simp)
      · obtain ⟨r, hrmem, hralive⟩ := exists_alive_neighbor_of_count_three _ q h3
        refine Or.inr ⟨h3, r, hcovA r hralive, ?_⟩
        rw [mem_get_dead_cells]
        exact ⟨mem_neighborList_symm _ _ hrmem, hAf⟩

/-! ## Claim theorems: the generation rules -/

/-- C1: every neighbor count of a generation update is evaluated against the
snapshot of the cells alive before the step, so the post-step live set is the
one obtained by applying the rules (survive on 2 or 3, be born on exactly 3)
to the pre-step generation only.  The hypotheses state the reachable-state
facts that `HashMap` keys are unique and that every alive entry has a `Cell`
entity at its position. -/
theorem step_uses_pre_step_snapshot_only (cells : CellMap) (E : List Pos) (nextE : Nat)
    (q : Pos) (hnd : (cells.map Prod.fst).Nodup)
    (hcover : ∀ pc ∈ cells, pc.2.alive = true → pc.1 ∈ E) :
    isAlive (populationStep cells E nextE).cells q =
      (if isAlive cells q = true then
        decide (2 ≤ count_cell_neighbors q (aliveSnapshot cells) ∧
                count_cell_neighbors q (aliveSnapshot cells) ≤ 3)
      else
        decide (count_cell_neighbors q (aliveSnapshot cells) = 3)) := by
  by_cases hAlive : isAlive cells q = true
  · rw [if_pos hAlive]
    by_cases hcnt : 2 ≤ count_cell_neighbors q (aliveSnapshot cells) ∧
        count_cell_neighbors q (aliveSnapshot cells) ≤ 3
    · rw [(step_char cells E nextE q hnd hcover).mpr (Or.inl ⟨hAlive, hcnt.1, hcnt.2⟩),
        decide_eq_true hcnt]
    · rw [decide_eq_false hcnt]
      cases hres : isAlive (populationStep cells E nextE).cells q
      · rfl
      · rcases (step_char cells E nextE q hnd hcover).mp hres with ⟨_, h2, h3⟩ | ⟨hd, _⟩
        · exact absurd ⟨h2, h3⟩ hcnt
        · rw [hAlive] at hd
          exact absurd hd (by simp)
  · simp only [Bool.not_eq_true] at hAlive
    rw [if_neg (by rw [hAlive]; simp)]
    by_cases hcnt : count_cell_neighbors q (aliveSnapshot cells) = 3
    · rw [(step_char cells E nextE q hnd hcover).mpr (Or.inr ⟨hAlive, hcnt⟩),
        decide_eq_true hcnt]
    · rw [decide_eq_false hcnt]
      cases hres : isAlive (populationStep cells E nextE).cells q
      · rfl
      · rcases (step_char cells E nextE q hnd hcover).mp hres with ⟨ha, _⟩ | ⟨_, h3⟩
        · rw [hAlive] at ha
          exact absurd ha (by simp)
        · exact absurd h3 hcnt

/-- Witness for `step_uses_pre_step_snapshot_only` at the blinker seed and the
born corner `(4, 12)`. -/
theorem step_uses_pre_step_snapshot_only_witness :
    ((blinkerCells.map Prod.fst).Nodup ∧
     (∀ pc ∈ blinkerCells, pc.2.alive = true → pc.1 ∈ blinkerE)) ∧
    isAlive (populationStep blinkerCells blinkerE 3).cells (4, 12) =
      (if isAlive blinkerCells (4, 12) = true then
        decide (2 ≤ count_cell_neighbors (4, 12) (aliveSnapshot blinkerCells) ∧
                count_cell_neighbors (4, 12) (aliveSnapshot blinkerCells) ≤ 3)
      else
        decide (count_cell_neighbors (4, 12) (aliveSnapshot blinkerCells) = 3)) :=
  ⟨⟨by decide, by decide⟩,
   step_uses_pre_step_snapshot_only blinkerCells blinkerE 3 (4, 12) (by decide) (by decide)⟩

/-- C2: a cell that is live before a step is alive after the step iff its
pre-step neighbor count is exactly 2 or 3; with fewer than 2 or more than 3 it
is dead afterwards. -/
theorem live_cell_survives_iff (cells : CellMap) (E : List Pos) (nextE : Nat) (q : Pos)
    (hnd : (cells.map Prod.fst).Nodup)
    (hcover : ∀ pc ∈ cells, pc.2.alive = true → pc.1 ∈ E)
    (halive : isAlive cells q = true) :
    (isAlive (populationStep cells E nextE).cells q = true ↔
      (count_cell_neighbors q (aliveSnapshot cells) = 2 ∨
       count_cell_neighbors q (aliveSnapshot cells) = 3)) := by
  rw [step_char cells E nextE q hnd hcover]
  constructor
  · rintro (⟨_, h2, h3⟩ | ⟨hd, _⟩)
    · omega
    · rw [halive] at hd
      exact absurd hd (by simp)
  · intro h
    exact Or.inl ⟨halive, by omega⟩

/-- Witness for `live_cell_survives_iff`: the blinker middle cell `(4, 4)` has
2 neighbors and survives. -/
theorem live_cell_survives_iff_witness :
    ((blinkerCells.map Prod.fst).Nodup ∧
     (∀ pc ∈ blinkerCells, pc.2.alive = true → pc.1 ∈ blinkerE) ∧
     isAlive blinkerCells (4, 4) = true) ∧
    (isAlive (populationStep blinkerCells blinkerE 3).cells (4, 4) = true ↔
      (count_cell_neighbors (4, 4) (aliveSnapshot blinkerCells) = 2 ∨
       count_cell_neighbors (4, 4) (aliveSnapshot blinkerCells) = 3)) :=
  ⟨⟨by decide, by decide, by decide⟩,
   live_cell_survives_iff blinkerCells blinkerE 3 (4, 4) (by decide) (by decide) (by decide)⟩

/-- C3: a coordinate that is dead before a step is alive after the step iff
its pre-step neighbor count is exactly 3. -/
theorem dead_cell_born_iff (cells : CellMap) (E : List Pos) (nextE : Nat) (q : Pos)
    (hnd : (cells.map Prod.fst).Nodup)
    (hcover : ∀ pc ∈ cells, pc.2.alive = true → pc.1 ∈ E)
    (hdead : isAlive cells q = false) :
    (isAlive (populationStep cells E nextE).cells q = true ↔
      count_cell_neighbors q (aliveSnapshot cells) = 3) := by
  rw [step_char cells E nextE q hnd hcover]
  constructor
  · rintro (⟨ha, _⟩ | ⟨_, h3⟩)
    · rw [hdead] at ha
      exact absurd ha (by simp)
    · exact h3
  · intro h3
    exact Or.inr ⟨hdead, h3⟩

/-- Witness for `dead_cell_born_iff`: the corner `(4, 12)` of the blinker is
dead with 3 neighbors and is born. -/
theorem dead_cell_born_iff_witness :
    ((blinkerCells.map Prod.fst).Nodup ∧
     (∀ pc ∈ blinkerCells, pc.2.alive = true → pc.1 ∈ blinkerE) ∧
     isAlive blinkerCells (4, 12) = false) ∧
    (isAlive (populationStep blinkerCells blinkerE 3).cells (4, 12) = true ↔
      count_cell_neighbors (4, 12) (aliveSnapshot blinkerCells) = 3) :=
  ⟨⟨by decide, by decide, by decide⟩,
   dead_cell_born_iff blinkerCells blinkerE 3 (4, 12) (by decide) (by decide) (by decide)⟩

/-! ## Entity handles are preserved across a step -/

lemma entity_mapGet_setAlive (l : CellMap) (e q : Pos) (b : Bool) (c : CellData)
    (h : mapGet l q = some c) :
    ∃ c2, mapGet (setAlive l e b) q = some c2 ∧ c2.entity = c.entity := by
  by_cases hq : q = e
  · subst hq
    refine ⟨⟨b, c.entity⟩, ?_, rfl⟩
    rw [mapGet_setAlive_self, h]
    rfl
  · exact ⟨c, by rw [mapGet_setAlive_ne _ _ _ _ hq]; exact h, rfl⟩

lemma entity_mapGet_birthStep (a : CellMap) (st : StepState) (dp q : Pos) (c : CellData)
    (h : mapGet st.cells q = some c) :
    ∃ c2, mapGet (birthStep a st dp).cells q = some c2 ∧ c2.entity = c.entity := by
  unfold birthStep
  by_cases h3 : count_cell_neighbors dp a = 3
  · rw [if_pos h3]
    cases hg : mapGet st.cells dp with
    | some c3 =>
        exact entity_mapGet_setAlive st.cells dp q true c h
    | none =>
        by_cases hq : q = dp
        · subst hq
          rw [h] at hg
          exact absurd hg (by simp)
        · refine ⟨c, ?_, rfl⟩
          show mapGet (mapInsert st.cells dp ⟨true, st.nextEntity⟩) q = _
          rw [mapGet_mapInsert_ne _ _ _ _ hq]
          exact h
  · rw [if_neg h3]
    exact ⟨c, h, rfl⟩

lemma entity_mapGet_birthFold (a : CellMap) (L : List Pos) (st : StepState) (q : Pos)
    (c : CellData) (h : mapGet st.cells q = some c) :
    ∃ c2, mapGet ((L.foldl (birthStep a) st).cells) q = some c2 ∧ c2.entity = c.entity := by
  induction L generalizing st c with
  | nil => exact ⟨c, h, rfl⟩
  | cons b L ih =>
      rw [List.foldl_cons]
      obtain ⟨c2, h2, he⟩ := entity_mapGet_birthStep a st b q c h
      obtain ⟨c3, h3, he3⟩ := ih _ _ h2
      exact ⟨c3, h3, he3.trans he⟩

lemma entity_mapGet_processEntity (a : CellMap) (st : StepState) (e q : Pos) (c : CellData)
    (h : mapGet st.cells q = some c) :
    ∃ c2, mapGet (processEntity a st e).cells q = some c2 ∧ c2.entity = c.entity := by
  unfold processEntity
  by_cases hb : count_cell_neighbors e a < 2 ∨ count_cell_neighbors e a > 3
  · rw [if_pos hb]
    obtain ⟨c2, h2, he⟩ := entity_mapGet_setAlive st.cells e q false c h
    obtain ⟨c3, h3, he3⟩ :=
      entity_mapGet_birthFold a _ { st with cells := setAlive st.cells e false } q c2 h2
    exact ⟨c3, h3, he3.trans he⟩
  · rw [if_neg hb]
    exact entity_mapGet_birthFold a _ st q c h

lemma entity_mapGet_entityFold (a : CellMap) (E : List Pos) (st : StepState) (q : Pos)
    (c : CellData) (h : mapGet st.cells q = some c) :
    ∃ c2, mapGet ((E.foldl (processEntity a) st).cells) q = some c2 ∧ c2.entity = c.entity := by
  induction E generalizing st c with
  | nil => exact ⟨c, h, rfl⟩
  | cons e E ih =>
      rw [List.foldl_cons]
      obtain ⟨c2, h2, he⟩ := entity_mapGet_processEntity a st e q c h
      obtain ⟨c3, h3, he3⟩ := ih _ _ h2
      exact ⟨c3, h3, he3.trans he⟩

lemma isSome_setAlive (l : CellMap) (e q : Pos) (b : Bool) :
    (mapGet (setAlive l e b) q).isSome = (mapGet l q).isSome := by
  by_cases hq : q = e
  · subst hq
    rw [mapGet_setAlive_self]
    cases mapGet l q <;> rfl
  · rw [mapGet_setAlive_ne _ _ _ _ hq]

lemma spawn_free_birthStep (a : CellMap) (st : StepState) (dp q : Pos)
    (hpres : (mapGet st.cells q).isSome = true) :
    spawnCount (birthStep a st dp).spawned q = spawnCount st.spawned q ∧
    (mapGet (birthStep a st dp).cells q).isSome = true := by
  unfold birthStep
  by_cases h3 : count_cell_neighbors dp a = 3
  · rw [if_pos h3]
    cases hg : mapGet st.cells dp with
    | some c3 =>
        refine ⟨rfl, ?_⟩
        show (mapGet (setAlive st.cells dp true) q).isSome = true
        rw [isSome_setAlive]
        exact hpres
    | none =>
        by_cases hq : q = dp
        · subst hq
          rw [hg] at hpres
          exact absurd hpres (by simp)
        · constructor
          · show spawnCount (st.spawned ++ [(st.nextEntity, dp)]) q = _
            unfold spawnCount
            rw [List.countP_append]
            have hdq : ¬ dp = q := fun h => hq h.symm
            simp [hdq]
          · show (mapGet (mapInsert st.cells dp ⟨true, st.nextEntity⟩) q).isSome = true
            rw [mapGet_mapInsert_ne _ _ _ _ hq]
            exact hpres
  · rw [if_neg h3]
    exact ⟨rfl, hpres⟩

lemma spawn_free_birthFold (a : CellMap) (L : List Pos) (st : StepState) (q : Pos)
    (hpres : (mapGet st.cells q).isSome = true) :
    spawnCount ((L.foldl (birthStep a) st).spawned) q = spawnCount st.spawned q ∧
    (mapGet ((L.foldl (birthStep a) st).cells) q).isSome = true := by
  induction L generalizing st with
  | nil => exact ⟨rfl, hpres⟩
  | cons b L ih =>
      rw [List.foldl_cons]
      obtain ⟨h1, h2⟩ := spawn_free_birthStep a st b q hpres
      obtain ⟨h3, h4⟩ := ih _ h2
      exact ⟨h3.trans h1, h4⟩

lemma spawn_free_processEntity (a : CellMap) (st : StepState) (e q : Pos)
    (hpres : (mapGet st.cells q).isSome = true) :
    spawnCount (processEntity a st e).spawned q = spawnCount st.spawned q ∧
    (mapGet (processEntity a st e).cells q).isSome = true := by
  unfold processEntity
  by_cases hb : count_cell_neighbors e a < 2 ∨ count_cell_neighbors e a > 3
  · rw [if_pos hb]
    refine spawn_free_birthFold a _ _ q ?_
    show (mapGet (setAlive st.cells e false) q).isSome = true
    rw [isSome_setAlive]
    exact hpres
  · rw [if_neg hb]
    exact spawn_free_birthFold a _ st q hpres

lemma spawn_free_entityFold (a : CellMap) (E : List Pos) (st : StepState) (q : Pos)
    (hpres : (mapGet st.cells q).isSome = true) :
    spawnCount ((E.foldl (processEntity a) st).spawned) q = spawnCount st.spawned q ∧
    (mapGet ((E.foldl (processEntity a) st).cells) q).isSome = true := by
  induction E generalizing st with
  | nil => exact ⟨rfl, hpres⟩
  | cons e E ih =>
      rw [List.foldl_cons]
      obtain ⟨h1, h2⟩ := spawn_free_processEntity a st e q hpres
      obtain ⟨h3, h4⟩ := ih _ h2
      exact ⟨h3.trans h1, h4⟩

/-- C8: a coordinate that is alive both before and after a generation update
keeps its entity handle: the update neither replaces the handle nor spawns a
new entity at that coordinate (and the update contains no despawn at all). -/
theorem step_preserves_entity_handle (cells : CellMap) (E : List Pos) (nextE : Nat) (q : Pos)
    (hbefore : isAlive cells q = true)
    (_hafter : isAlive (populationStep cells E nextE).cells q = true) :
    (mapGet (populationStep cells E nextE).cells q).map CellData.entity =
      (mapGet cells q).map CellData.entity ∧
    spawnCount (populationStep cells E nextE).spawned q = 0 := by
  obtain ⟨c, hc, _⟩ := (isAlive_eq_true_iff cells q).mp hbefore
  constructor
  · obtain ⟨c2, h2, he⟩ :=
      entity_mapGet_entityFold (aliveSnapshot cells) E ⟨cells, nextE, []⟩ q c hc
    rw [show (populationStep cells E nextE).cells =
        ((E.foldl (processEntity (aliveSnapshot cells)) ⟨cells, nextE, []⟩).cells) from rfl]
    rw [h2, hc]
    simp [he]
  · have hpres : (mapGet (⟨cells, nextE, []⟩ : StepState).cells q).isSome = true := by
      show (mapGet cells q).isSome = true
      rw [hc]
      rfl
    have := (spawn_free_entityFold (aliveSnapshot cells) E ⟨cells, nextE, []⟩ q hpres).1
    exact this

/-- Witness for `step_preserves_entity_handle`: the blinker middle cell
`(4, 4)` survives the step and keeps entity `1`. -/
theorem step_preserves_entity_handle_witness :
    (isAlive blinkerCells (4, 4) = true ∧
     isAlive (populationStep blinkerCells blinkerE 3).cells (4, 4) = true) ∧
    ((mapGet (populationStep blinkerCells blinkerE 3).cells (4, 4)).map CellData.entity =
      (mapGet blinkerCells (4, 4)).map CellData.entity ∧
     spawnCount (populationStep blinkerCells blinkerE 3).spawned (4, 4) = 0) :=
  ⟨⟨by decide, by decide⟩,
   step_preserves_entity_handle blinkerCells blinkerE 3 (4, 4) (by decide) (by decide)⟩

/-! ## A born coordinate is inserted exactly once -/

lemma mapGet_setAlive_none (l : CellMap) (e p : Pos) (b : Bool)
    (h : mapGet l p = none) : mapGet (setAlive l e b) p = none := by
  by_cases hp : p = e
  · subst hp
    rw [mapGet_setAlive_self, h]
    rfl
  · rw [mapGet_setAlive_ne _ _ _ _ hp]
    exact h

lemma keyCount_setAlive (l : CellMap) (e p : Pos) (b : Bool) :
    keyCount (setAlive l e b) p = keyCount l p := by
  induction l with
  | nil => rfl
  | cons kv rest ih =>
      unfold setAlive
      by_cases h : kv.1 = e
      · rw [if_pos h]
        unfold keyCount
        rw [List.countP_cons, List.countP_cons]
      · rw [if_neg h]
        unfold keyCount at ih ⊢
        rw [List.countP_cons, List.countP_cons, ih]

lemma keyCount_eq_zero_of_get_none (l : CellMap) (p : Pos) (h : mapGet l p = none) :
    keyCount l p = 0 := by
  unfold keyCount
  rw [List.countP_eq_zero]
  intro kv hkv
  rw [mapGet_eq_none_iff] at h
  simp only [decide_eq_true_eq]
  intro heq
  exact h (heq ▸ List.mem_map_of_mem Prod.fst hkv)

lemma keyCount_append_single (l : CellMap) (dp p : Pos) (v : CellData) :
    keyCount (l ++ [(dp, v)]) p = keyCount l p + (if dp = p then 1 else 0) := by
  unfold keyCount
  rw [List.countP_append]
  by_cases h : dp = p <;> simp [List.countP_cons, h]

lemma spawnCount_append_single (s : List (Nat × Pos)) (n : Nat) (dp p : Pos) :
    spawnCount (s ++ [(n, dp)]) p = spawnCount s p + (if dp = p then 1 else 0) := by
  unfold spawnCount
  rw [List.countP_append]
  by_cases h : dp = p <;> simp [List.countP_cons, h]

lemma bornOnce_birthStep (a : CellMap) (st : StepState) (dp p : Pos)
    (h : BornOnceInv p st) : BornOnceInv p (birthStep a st dp) := by
  unfold birthStep
  by_cases h3 : count_cell_neighbors dp a = 3
  · rw [if_pos h3]
    cases hg : mapGet st.cells dp with
    | some c =>
        rcases h with ⟨h1, h2, hs⟩ | ⟨h1, h2, hs⟩
        · left
          refine ⟨?_, ?_, hs⟩
          · show mapGet (setAlive st.cells dp true) p = none
            exact mapGet_setAlive_none _ _ _ _ h1
          · show keyCount (setAlive st.cells dp true) p = 0
            rw [keyCount_setAlive]
            exact h2
        · right
          refine ⟨?_, ?_, hs⟩
          · show (mapGet (setAlive st.cells dp true) p).isSome = true
            rw [isSome_setAlive]
            exact h1
          · show keyCount (setAlive st.cells dp true) p = 1
            rw [keyCount_setAlive]
            exact h2
    | none =>
        by_cases hp : dp = p
        · subst hp
          rcases h with ⟨h1, h2, hs⟩ | ⟨h1, h2, hs⟩
          · right
            refine ⟨?_, ?_, ?_⟩
            · show (mapGet (mapInsert st.cells dp ⟨true, st.nextEntity⟩) dp).isSome = true
              rw [mapGet_mapInsert_self]
              rfl
            · show keyCount (mapInsert st.cells dp ⟨true, st.nextEntity⟩) dp = 1
              rw [mapInsert_of_get_none _ _ _ hg, keyCount_append_single, h2, if_pos rfl]
            · show spawnCount (st.spawned ++ [(st.nextEntity, dp)]) dp = 1
              rw [spawnCount_append_single, hs, if_pos rfl]
          · rw [hg] at h1
            exact absurd h1 (by simp)
        · have hpd : p ≠ dp := fun hq => hp hq.symm
          rcases h with ⟨h1, h2, hs⟩ | ⟨h1, h2, hs⟩
          · left
            refine ⟨?_, ?_, ?_⟩
            · show mapGet (mapInsert st.cells dp ⟨true, st.nextEntity⟩) p = none
              rw [mapGet_mapInsert_ne _ _ _ _ hpd]
              exact h1
            · show keyCount (mapInsert st.cells dp ⟨true, st.nextEntity⟩) p = 0
              rw [mapInsert_of_get_none _ _ _ hg, keyCount_append_single, h2, if_neg hp]
            · show spawnCount (st.spawned ++ [(st.nextEntity, dp)]) p = 0
              rw [spawnCount_append_single, hs, if_neg hp]
          · right
            refine ⟨?_, ?_, ?_⟩
            · show (mapGet (mapInsert st.cells dp ⟨true, st.nextEntity⟩) p).isSome = true
              rw [mapGet_mapInsert_ne _ _ _ _ hpd]
              exact h1
            · show keyCount (mapInsert st.cells dp ⟨true, st.nextEntity⟩) p = 1
              rw [mapInsert_of_get_none _ _ _ hg, keyCount_append_single, h2, if_neg hp]
            · show spawnCount (st.spawned ++ [(st.nextEntity, dp)]) p = 1
              rw [spawnCount_append_single, hs, if_neg hp]
  · rw [if_neg h3]
    exact h

lemma bornOnce_birthFold (a : CellMap) (L : List Pos) (st : StepState) (p : Pos)
    (h : BornOnceInv p st) : BornOnceInv p (L.foldl (birthStep a) st) := by
  induction L generalizing st with
  | nil => exact h
  | cons b L ih =>
      rw [List.foldl_cons]
      exact ih _ (bornOnce_birthStep a st b p h)

lemma bornOnce_processEntity (a : CellMap) (st : StepState) (e p : Pos)
    (h : BornOnceInv p st) : BornOnceInv p (processEntity a st e) := by
  unfold processEntity
  by_cases hb : count_cell_neighbors e a < 2 ∨ count_cell_neighbors e a > 3
  · rw [if_pos hb]
    refine bornOnce_birthFold a _ _ p ?_
    rcases h with ⟨h1, h2, hs⟩ | ⟨h1, h2, hs⟩
    · left
      refine ⟨?_, ?_, hs⟩
      · show mapGet (setAlive st.cells e false) p = none
        exact mapGet_setAlive_none _ _ _ _ h1
      · show keyCount (setAlive st.cells e false) p = 0
        rw [keyCount_setAlive]
        exact h2
    · right
      refine ⟨?_, ?_, hs⟩
      · show (mapGet (setAlive st.cells e false) p).isSome = true
        rw [isSome_setAlive]
        exact h1
      · show keyCount (setAlive st.cells e false) p = 1
        rw [keyCount_setAlive]
        exact h2
  · rw [if_neg hb]
    exact bornOnce_birthFold a _ st p h

lemma bornOnce_entityFold (a : CellMap) (E : List Pos) (st : StepState) (p : Pos)
    (h : BornOnceInv p st) : BornOnceInv p (E.foldl (processEntity a) st) := by
  induction E generalizing st with
  | nil => exact h
  | cons e E ih =>
      rw [List.foldl_cons]
      exact ih _ (bornOnce_processEntity a st e p h)

/-- C5 counterexample: within one step of the blinker, the dead corner
`(4, 12)` is adjacent to all 3 live cells and its birth rule is evaluated 3
times (once per enumerating cell entity), not at most once: the candidate set
is not deduplicated. -/
theorem dead_candidate_not_deduplicated :
    birthEvaluations (aliveSnapshot blinkerCells) blinkerE (4, 12) = 3 ∧
    ¬(birthEvaluations (aliveSnapshot blinkerCells) blinkerE (4, 12) ≤ 1) := by
  constructor
  · decide
  · decide

/-- C5 amended: a dead candidate adjacent to several cells is re-evaluated
once per adjacent cell entity, but a born coordinate is nevertheless inserted
exactly once: the updated map holds exactly one entry for it, exactly one
entity is spawned for it, and it ends alive. -/
theorem born_coordinate_inserted_once (cells : CellMap) (E : List Pos) (nextE : Nat)
    (p : Pos) (hnd : (cells.map Prod.fst).Nodup)
    (hcover : ∀ pc ∈ cells, pc.2.alive = true → pc.1 ∈ E)
    (hnone : mapGet cells p = none)
    (hc3 : count_cell_neighbors p (aliveSnapshot cells) = 3) :
    keyCount (populationStep cells E nextE).cells p = 1 ∧
    spawnCount (populationStep cells E nextE).spawned p = 1 ∧
    isAlive (populationStep cells E nextE).cells p = true := by
  have hdead : isAlive cells p = false := by
    rw [isAlive_eq, hnone]
  have halive : isAlive (populationStep cells E nextE).cells p = true :=
    (step_char cells E nextE p hnd hcover).mpr (Or.inr ⟨hdead, hc3⟩)
  have hinv : BornOnceInv p (populationStep cells E nextE) := by
    unfold populationStep
    refine bornOnce_entityFold _ _ _ _ ?_
    left
    exact ⟨hnone, keyCount_eq_zero_of_get_none _ _ hnone, rfl⟩
  rcases hinv with ⟨h1, _, _⟩ | ⟨_, h2, h3⟩
  · rw [isAlive_eq, h1] at halive
    exact absurd halive (by simp)
  · exact ⟨h2, h3, halive⟩

/-- Witness for `born_coordinate_inserted_once` at the blinker corner
`(4, 12)`. -/
theorem born_coordinate_inserted_once_witness :
    ((blinkerCells.map Prod.fst).Nodup ∧
     (∀ pc ∈ blinkerCells, pc.2.alive = true → pc.1 ∈ blinkerE) ∧
     mapGet blinkerCells (4, 12) = none ∧
     count_cell_neighbors (4, 12) (aliveSnapshot blinkerCells) = 3) ∧
    (keyCount (populationStep blinkerCells blinkerE 3).cells (4, 12) = 1 ∧
     spawnCount (populationStep blinkerCells blinkerE 3).spawned (4, 12) = 1 ∧
     isAlive (populationStep blinkerCells blinkerE 3).cells (4, 12) = true) :=
  ⟨⟨by decide, by decide, by decide, by decide⟩,
   born_coordinate_inserted_once blinkerCells blinkerE 3 (4, 12)
     (by decide) (by decide) (by decide) (by decide)⟩

/-! ## Dead cells are retained, not removed -/

/-- C4 counterexample: one step of the lone-cell world kills the cell, yet its
coordinate still appears in the mapping, flagged `alive = false` rather than
removed. -/
theorem dead_cell_retained :
    (mapGet (population_system lonelyWorld true).cells (4, 4)).isSome = true ∧
    isAlive (population_system lonelyWorld true).cells (4, 4) = false := by
  constructor
  · decide
  · decide

/-- C4 amended: a generation update never removes a mapping entry: every key
present before the step is still present after it (dead cells are kept with
their `alive` flag cleared, and aliveness is exactly the flag). -/
theorem step_never_removes_keys (cells : CellMap) (E : List Pos) (nextE : Nat) (q : Pos)
    (h : (mapGet cells q).isSome = true) :
    (mapGet (populationStep cells E nextE).cells q).isSome = true :=
  (spawn_free_entityFold (aliveSnapshot cells) E ⟨cells, nextE, []⟩ q h).2

/-- Witness for `step_never_removes_keys`: the lone dying cell keeps its
entry. -/
theorem step_never_removes_keys_witness :
    ((mapGet lonelyWorld.cells (4, 4)).isSome = true) ∧
    (mapGet (populationStep lonelyWorld.cells [(4, 4)] 1).cells (4, 4)).isSome = true :=
  ⟨by decide, step_never_removes_keys lonelyWorld.cells [(4, 4)] 1 (4, 4) (by decide)⟩

/-! ## The blinker oscillates with period 2 -/

/-- C7: from a row of three collinear live cells, one step yields exactly the
three-cell column centered on the same middle coordinate `(4, 4)`, and a
second step restores exactly the live set of the original row. -/
theorem blinker_period_two :
    liveSet (population_system blinkerWorld true).cells = [(4, 4), (4, 12), (4, -4)] ∧
    liveSet (population_system (population_system blinkerWorld true) true).cells =
      liveSet blinkerWorld.cells := by
  constructor
  · decide
  · decide

/-! ## Editing-mode placement and the running gate -/

/-- C10: while `game_state.running` is set, processing a mouse click is a
complete no-op: `place_tile_system` returns the state unchanged, so it neither
modifies the grid mapping nor spawns a cell entity (this holds for every
state, hence for every reachable running state). -/
theorem running_blocks_tile_placement (w : World) (mx my : ℚ) (h : w.running = true) :
    place_tile_system w mx my = w := by
  unfold place_tile_system
  rw [if_pos h]

/-- Witness for `running_blocks_tile_placement` on the running lone-cell
world. -/
theorem running_blocks_tile_placement_witness :
    lonelyWorld.running = true ∧ place_tile_system lonelyWorld 1 1 = lonelyWorld :=
  ⟨by decide, running_blocks_tile_placement lonelyWorld 1 1 (by decide)⟩

lemma ratTruncToInt_one : ratTruncToInt 1 = 1 := by
  unfold ratTruncToInt
  rw [if_pos (by norm_num)]
  norm_num

lemma discretize_one : discretize 1 = 4 := by
  unfold discretize ratTruncToInt get_center_offset CELL_SIZE
  rw [if_pos (by norm_num), if_pos (by norm_num)]
  norm_num

lemma discretize_zero : discretize 0 = -4 := by
  unfold discretize ratTruncToInt get_center_offset CELL_SIZE
  rw [if_pos (by norm_num), if_neg (by norm_num)]
  norm_num

lemma spec_floor_center_zero : spec_floor_center 0 = 4 := by
  unfold spec_floor_center CELL_SIZE
  norm_num

lemma place_editWorld_eval : place_tile_system editWorld 1 1 =
    { editWorld with
      cells := mapInsert editWorld.cells (4, 4) ⟨true, 1⟩,
      cellEntities := editWorld.cellEntities ++ [(1, (4, 4))],
      nextEntity := 2 } := by
  unfold place_tile_system
  rw [if_neg (by decide), if_neg (by rw [ratTruncToInt_one]; decide),
    if_neg (by rw [ratTruncToInt_one]; decide), discretize_one]
  rfl

/-- C6 counterexample: a click at `(1, 1)` discretizes to `(4, 4)`, which is
already live with entity `0`; the placement does not fail and does not leave
the existing cell unchanged: it spawns entity `1` and overwrites the handle of the entry
with it. -/
theorem insert_on_live_cell_overwrites :
    mapGet editWorld.cells (4, 4) = some ⟨true, 0⟩ ∧
    mapGet (place_tile_system editWorld 1 1).cells (4, 4) = some ⟨true, 1⟩ ∧
    (place_tile_system editWorld 1 1).nextEntity = 2 := by
  rw [place_editWorld_eval]
  refine ⟨by decide, by decide, by decide⟩

/-- C6 amended: in editing mode an in-bounds placement always succeeds: the
target coordinate ends bound to the freshly spawned entity (replacing any
handle already there), and the entry of every other coordinate is unaffected. -/
theorem place_tile_overwrites_target_only (w : World) (mx my : ℚ)
    (hrun : w.running = false)
    (hx : ¬(ratTruncToInt mx < -(WINDOW_WIDTH / 2) ∨ ratTruncToInt mx > WINDOW_WIDTH / 2))
    (hy : ¬(ratTruncToInt my < -(WINDOW_HEIGHT / 2) ∨ ratTruncToInt my > WINDOW_HEIGHT / 2)) :
    mapGet (place_tile_system w mx my).cells (discretize mx, discretize my) =
      some ⟨true, w.nextEntity⟩ ∧
    (place_tile_system w mx my).nextEntity = w.nextEntity + 1 ∧
    ∀ q, q ≠ (discretize mx, discretize my) →
      mapGet (place_tile_system w mx my).cells q = mapGet w.cells q := by
  have hw : place_tile_system w mx my =
      { w with
        cells := mapInsert w.cells (discretize mx, discretize my) ⟨true, w.nextEntity⟩,
        cellEntities := w.cellEntities ++ [(w.nextEntity, (discretize mx, discretize my))],
        nextEntity := w.nextEntity + 1 } := by
    unfold place_tile_system
    rw [if_neg (by rw [hrun]; simp), if_neg hx, if_neg hy]
  rw [hw]
  refine ⟨mapGet_mapInsert_self _ _ _, rfl, ?_⟩
  intro q hq
  exact mapGet_mapInsert_ne _ _ _ _ hq

/-- Witness for `place_tile_overwrites_target_only`: the overwriting click at
`(1, 1)` on `editWorld`. -/
theorem place_tile_overwrites_target_only_witness :
    (editWorld.running = false ∧
     ¬(ratTruncToInt 1 < -(WINDOW_WIDTH / 2) ∨ ratTruncToInt 1 > WINDOW_WIDTH / 2)) ∧
    mapGet (place_tile_system editWorld 1 1).cells (discretize 1, discretize 1) =
      some ⟨true, editWorld.nextEntity⟩ :=
  ⟨⟨by decide, by rw [ratTruncToInt_one]; decide⟩,
   (place_tile_overwrites_target_only editWorld 1 1 (by decide)
     (by rw [ratTruncToInt_one]; decide) (by rw [ratTruncToInt_one]; decide)).1⟩

/-! ## The discretization of pointer positions -/

lemma ceil_eq_floor_add_one_of_not_int (x : ℚ) (h : ∀ m : ℤ, x ≠ (m : ℚ)) :
    ⌈x⌉ = ⌊x⌋ + 1 := by
  have hlt : (⌊x⌋ : ℚ) < x := lt_of_le_of_ne (Int.floor_le x) (fun he => h ⌊x⌋ he.symm)
  have h1 : ⌈x⌉ ≤ ⌊x⌋ + 1 := by
    rw [Int.ceil_le]
    push_cast
    exact le_of_lt (Int.lt_floor_add_one x)
  have h2 : ⌊x⌋ + 1 ≤ ⌈x⌉ := by
    by_contra hcon
    push_neg at hcon
    have hle : ⌈x⌉ ≤ ⌊x⌋ := by omega
    have hxle : x ≤ (⌊x⌋ : ℚ) := le_trans (Int.le_ceil x) (by exact_mod_cast hle)
    linarith
  omega

/-- C9 counterexample: the in-bounds pointer position 0 is discretized by the
code to the center `-4` (grid cell `-1`), not to the floor-based center `4`
(grid cell `floor(0 / cell_size) = 0`). -/
theorem discretize_differs_from_floor_at_zero :
    discretize 0 = -4 ∧ spec_floor_center 0 = 4 ∧ discretize 0 ≠ spec_floor_center 0 := by
  refine ⟨discretize_zero, spec_floor_center_zero, ?_⟩
  rw [discretize_zero, spec_floor_center_zero]
  decide

/-- C9 amended: the truncate-and-offset discretization of the code agrees with
the specified `floor(position / cell_size)` (centered) at every position that is not
a nonpositive multiple of the cell size; at 0 and at each negative multiple of
the cell size it lands one full cell lower. -/
theorem discretize_eq_floor_except_boundaries (v : ℚ) :
    (¬(v ≤ 0 ∧ ∃ k : ℤ, v = k * 8) → discretize v = spec_floor_center v) ∧
    ((v ≤ 0 ∧ ∃ k : ℤ, v = k * 8) → discretize v = spec_floor_center v - 8) := by
  have h8 : (0:ℚ) < 8 := by norm_num
  unfold discretize spec_floor_center ratTruncToInt get_center_offset CELL_SIZE
  push_cast
  by_cases hv : 0 < v
  · have hx : 0 ≤ v / 8 := le_of_lt (div_pos hv h8)
    rw [if_pos hx, if_pos hv]
    constructor
    · intro _
      norm_num
    · rintro ⟨hle, _⟩
      linarith
  · rw [if_neg hv]
    have hvle : v ≤ 0 := le_of_not_lt hv
    constructor
    · rintro hno
      have hnex : ¬∃ k : ℤ, v = k * 8 := fun hex => hno ⟨hvle, hex⟩
      have hvne : v ≠ 0 := by
        intro h0
        exact hnex ⟨0, by rw [h0]; norm_num⟩
      have hvlt : v < 0 := lt_of_le_of_ne hvle hvne
      have hxlt : v / 8 < 0 := div_neg_of_neg_of_pos hvlt h8
      rw [if_neg (not_le.mpr hxlt)]
      have hnotint : ∀ m : ℤ, v / 8 ≠ (m : ℚ) := by
        intro m hm
        exact hnex ⟨m, by rw [← hm]; field_simp⟩
      rw [ceil_eq_floor_add_one_of_not_int _ hnotint]
      ring
    · rintro ⟨_, k, hk⟩
      have hxk : v / 8 = (k : ℚ) := by
        rw [hk]
        field_simp
      by_cases hx : 0 ≤ v / 8
      · rw [if_pos hx, hxk, Int.floor_intCast]
        ring
      · rw [if_neg hx, hxk, Int.ceil_intCast, Int.floor_intCast]
        ring

/-- Witness for `discretize_eq_floor_except_boundaries` at the boundary
position `-8` (an exact negative multiple of the cell size). -/
theorem discretize_eq_floor_except_boundaries_witness :
    discretize (-8) = spec_floor_center (-8) - 8 :=
  (discretize_eq_floor_except_boundaries (-8)).2 ⟨by norm_num, ⟨-1, by norm_num⟩⟩

end GoL
